import Mathlib

/-!
Formal model of the FastAPI-RateLimiter rate-decision engine.

The Python sources modelled here are `src/RateLimiter/base.py`,
`src/RateLimiter/token_bucket.py`, `src/RateLimiter/leaky_bucket.py` and
`src/RateLimiter/queue_limiter.py`.

Embedding conventions:

* Python numbers (floats and ints flowing through the token/level arithmetic)
  are modelled as rationals (`ℚ`); `time.time()` is modelled by an explicit
  `now : ℚ` argument, so each operation is a pure function of the prior store
  state and the call instant.
* Python exceptions are modelled with `Except PyExc`; `AttributeError`,
  `ValueError` and `ZeroDivisionError` are the ones these modules can raise.
* The classes `TokenBucketLimiter` and `LeakyBucketLimiter` invoke
  `self._get_from_backend`, `self._set_to_backend` and
  `self._delete_from_backend`, but no class in the hierarchy
  (`BaseRateLimiter` defines only `__init__` and `_get_key`) defines those
  attributes, and their implementation is not part of the modelled sources.
  Attribute resolution over the class method tables is therefore modelled
  explicitly (`getattrE` and the `*_lookup` operation variants), and the
  behaviour the accessors would have is modelled from the specification's
  State Store contract (get / put / delete on a key-scoped mapping); the
  definitions concerned carry a `Modelled from the spec:` note.
* `QueueLimiter` ships its own storage helpers `_get_data` / `_set_data`;
  their in-memory branch is modelled directly from the source (the Redis
  branch is outside the modelled in-process backend, and the
  `time.time()` evaluated inside `_get_data`'s default is identified with
  the `now` of the enclosing call, the same logical instant).
-/

/-- Python exceptions that the modelled modules can raise. -/
inductive PyExc where
  | attributeError (name : String)
  | valueError (msg : String)
  | zeroDivisionError
deriving DecidableEq, Repr

/-- Python's `int(x)` on a number: truncation toward zero. -/
def pyTrunc (q : ℚ) : ℤ :=
  if 0 ≤ q then ⌊q⌋ else ⌈q⌉

/-- Python's `/` on numbers: raises `ZeroDivisionError` on a zero divisor. -/
def pyDiv (a b : ℚ) : Except PyExc ℚ :=
  if b = 0 then .error .zeroDivisionError else .ok (a / b)

/-- Rounding to the nearest integer, ties to even — the rounding mode of
Python's built-in `round`. -/
def roundHalfEven (x : ℚ) : ℤ :=
  let f := ⌊x⌋
  if x - f < 1/2 then f
  else if 1/2 < x - f then f + 1
  else if f % 2 = 0 then f else f + 1

/-- Python's `round(x, 2)`. -/
def pyRound2 (q : ℚ) : ℚ := (roundHalfEven (q * 100) : ℚ) / 100

/-- Python's `round(x, 1)`. -/
def pyRound1 (q : ℚ) : ℚ := (roundHalfEven (q * 10) : ℚ) / 10

/-- Python's str-conversion of an optional identifier as an f-string performs
it: `None` prints as `"None"`. -/
def pyStr (identifier : Option String) : String :=
  match identifier with
  | none => "None"
  | some s => s

/-- Key-scoped state store, as the spec's State Store (§4.2): a mapping from
key to an algorithm-specific record; `none` is "absent". -/
def Store (σ : Type) : Type := String → Option σ

/-- Store `put`: overwrites unconditionally. -/
def Store.set {σ : Type} (s : Store σ) (k : String) (v : σ) : Store σ :=
  fun k' => if k' = k then some v else s k'

/-- Store `delete`. -/
def Store.del {σ : Type} (s : Store σ) (k : String) : Store σ :=
  fun k' => if k' = k then none else s k'

/-- Store with no record for any key. -/
def emptyStore {σ : Type} : Store σ := fun _ => none

/-- Configuration held by `BaseRateLimiter.__init__` (base.py lines 6-11):
it only records the fields; the `backend` / `redis_client` plumbing selects
the in-process mapping modelled by `Store`. No validation is performed. -/
structure Params where
  capacity : ℚ
  fill_rate : ℚ
  scope : String
deriving DecidableEq, Repr

/-- BaseRateLimiter._get_key (base.py lines 13-21): derives the storage key
from the configured scope and the call's identifier, raising
`ValueError("Invalid scope")` on any other scope string. -/
def getKey (scope : String) (identifier : Option String) : Except PyExc String :=
  if scope = "user" then .ok ("ratelimit:user:" ++ pyStr identifier)
  else if scope = "ip" then .ok ("ratelimit:ip:" ++ pyStr identifier)
  else if scope = "global" then .ok "ratelimit:global"
  else .error (.valueError "Invalid scope")

/-- Methods defined by class `BaseRateLimiter` (base.py): only `__init__`
and `_get_key`. -/
def BaseRateLimiter.methods : List String := ["__init__", "_get_key"]

/-- Methods resolvable on a `TokenBucketLimiter` instance: the ones the class
defines (token_bucket.py) followed by the inherited ones. -/
def TokenBucketLimiter.methods : List String :=
  ["__init__", "allow_request", "reset", "get_wait_time", "get_status"]
    ++ BaseRateLimiter.methods

/-- Methods resolvable on a `LeakyBucketLimiter` instance (leaky_bucket.py
plus the inherited ones). -/
def LeakyBucketLimiter.methods : List String :=
  ["__init__", "allow_request", "reset", "get_wait_time", "get_status"]
    ++ BaseRateLimiter.methods

/-- Methods resolvable on a `QueueLimiter` instance (queue_limiter.py plus
the inherited ones). -/
def QueueLimiter.methods : List String :=
  ["__init__", "_get_data", "_set_data", "allow_request", "get_retry_after",
    "get_current_usage"] ++ BaseRateLimiter.methods

/-- Python attribute resolution on an instance whose class hierarchy defines
the method names `ms`: produces the denotation `a` of the attribute when the
name resolves, and raises `AttributeError` otherwise. -/
def getattrE {α : Type} (ms : List String) (name : String) (a : α) :
    Except PyExc α :=
  if name ∈ ms then .ok a else .error (.attributeError name)

/-- Stored record of the token bucket (token_bucket.py): the dict
`{"tokens_remaining": ..., "last_fill_time": ...}`. -/
structure TBState where
  tokens_remaining : ℚ
  last_fill_time : ℚ
deriving DecidableEq, Repr

/-- Stored record of the leaky bucket (leaky_bucket.py): the dict
`{"water_level": ..., "last_check": ...}`. -/
structure LBState where
  water_level : ℚ
  last_check : ℚ
deriving DecidableEq, Repr

/-- Stored record of the sliding-window queue (queue_limiter.py): the dict
`{"queue": [...], "last_check": ...}`. -/
structure QState where
  queue : List ℚ
  last_check : ℚ
deriving DecidableEq, Repr

/-- TokenBucketLimiter.__init__ (token_bucket.py lines 15-19): stores the
configuration unvalidated and computes `_ttl = int((capacity / fill_rate) * 2)
+ 60`; the division raises `ZeroDivisionError` when `fill_rate` is zero. -/
def TokenBucketLimiter.init (capacity fill_rate : ℚ) (scope : String) :
    Except PyExc (Params × ℤ) := do
  let q ← pyDiv capacity fill_rate
  .ok (⟨capacity, fill_rate, scope⟩, pyTrunc (q * 2) + 60)

/-- LeakyBucketLimiter.__init__ (leaky_bucket.py lines 15-19): same shape as
the token bucket's constructor, including the `_ttl` division. -/
def LeakyBucketLimiter.init (capacity fill_rate : ℚ) (scope : String) :
    Except PyExc (Params × ℤ) := do
  let q ← pyDiv capacity fill_rate
  .ok (⟨capacity, fill_rate, scope⟩, pyTrunc (q * 2) + 60)

/-- QueueLimiter.__init__ (queue_limiter.py lines 9-11): stores the
configuration and an empty in-memory mapping; no computation can fail. -/
def QueueLimiter.init (capacity fill_rate : ℚ) (scope : String) :
    Except PyExc Params :=
  .ok ⟨capacity, fill_rate, scope⟩

/-- TokenBucketLimiter.allow_request (token_bucket.py lines 21-68).
Modelled from the spec: `self._get_from_backend` / `self._set_to_backend`
are not defined under the modelled sources; their behaviour is taken from the
spec's State Store contract (get returns the record or absent, put overwrites;
the TTL argument only affects backend expiry, which the in-process model has
no clock for). -/
def TokenBucketLimiter.allow_request (p : Params) (store : Store TBState)
    (identifier : Option String) (now : ℚ) :
    Except PyExc (Bool × Store TBState) := do
  let key ← getKey p.scope identifier
  match store key with
  | none =>
    .ok (true, store.set key ⟨p.capacity - 1, now⟩)
  | some data =>
    let tokens := data.tokens_remaining
    let last_fill := data.last_fill_time
    let elapsed := now - last_fill
    let tokens := min p.capacity (tokens + elapsed * p.fill_rate)
    if 1 ≤ tokens then
      .ok (true, store.set key ⟨tokens - 1, now⟩)
    else
      .ok (false, store.set key ⟨tokens, now⟩)

/-- TokenBucketLimiter.reset (token_bucket.py lines 70-78). Modelled from the
spec: `self._delete_from_backend` is the State Store delete. -/
def TokenBucketLimiter.reset (p : Params) (store : Store TBState)
    (identifier : Option String) : Except PyExc (Store TBState) := do
  let key ← getKey p.scope identifier
  .ok (store.del key)

/-- TokenBucketLimiter.get_wait_time (token_bucket.py lines 80-113).
Modelled from the spec: `self._get_from_backend` is the State Store get. -/
def TokenBucketLimiter.get_wait_time (p : Params) (store : Store TBState)
    (identifier : Option String) (now : ℚ) : Except PyExc ℚ := do
  let key ← getKey p.scope identifier
  match store key with
  | none => .ok 0
  | some data =>
    let elapsed := now - data.last_fill_time
    let current_tokens :=
      min p.capacity (data.tokens_remaining + elapsed * p.fill_rate)
    if 1 ≤ current_tokens then .ok 0
    else do
      let wait_time ← pyDiv (1 - current_tokens) p.fill_rate
      .ok (max 0 wait_time)

/-- Status dict returned by TokenBucketLimiter.get_status; the absent branch
returns a dict without the `last_fill_time` entry, hence the `Option`. -/
structure TBStatus where
  tokens_remaining : ℚ
  capacity : ℚ
  fill_rate : ℚ
  utilization_pct : ℚ
  last_fill_time : Option ℚ
deriving DecidableEq, Repr

/-- TokenBucketLimiter.get_status (token_bucket.py lines 115-151).
Modelled from the spec: `self._get_from_backend` is the State Store get. -/
def TokenBucketLimiter.get_status (p : Params) (store : Store TBState)
    (identifier : Option String) (now : ℚ) : Except PyExc TBStatus := do
  let key ← getKey p.scope identifier
  match store key with
  | none => .ok ⟨p.capacity, p.capacity, p.fill_rate, 0, none⟩
  | some data =>
    let elapsed := now - data.last_fill_time
    let current_tokens :=
      min p.capacity (data.tokens_remaining + elapsed * p.fill_rate)
    let ratio ← pyDiv current_tokens p.capacity
    .ok ⟨pyRound2 current_tokens, p.capacity, p.fill_rate,
      pyRound1 ((1 - ratio) * 100), some data.last_fill_time⟩

/-- LeakyBucketLimiter.allow_request (leaky_bucket.py lines 21-70).
Modelled from the spec: the backend accessors are the State Store get/put. -/
def LeakyBucketLimiter.allow_request (p : Params) (store : Store LBState)
    (identifier : Option String) (now : ℚ) :
    Except PyExc (Bool × Store LBState) := do
  let key ← getKey p.scope identifier
  match store key with
  | none =>
    .ok (true, store.set key ⟨1, now⟩)
  | some data =>
    let elapsed := now - data.last_check
    let leaked := elapsed * p.fill_rate
    let water_level := max 0 (data.water_level - leaked)
    if water_level + 1 ≤ p.capacity then
      .ok (true, store.set key ⟨water_level + 1, now⟩)
    else
      .ok (false, store.set key ⟨water_level, now⟩)

/-- LeakyBucketLimiter.reset (leaky_bucket.py lines 72-80). Modelled from the
spec: `self._delete_from_backend` is the State Store delete. -/
def LeakyBucketLimiter.reset (p : Params) (store : Store LBState)
    (identifier : Option String) : Except PyExc (Store LBState) := do
  let key ← getKey p.scope identifier
  .ok (store.del key)

/-- LeakyBucketLimiter.get_wait_time (leaky_bucket.py lines 82-115).
Modelled from the spec: `self._get_from_backend` is the State Store get. -/
def LeakyBucketLimiter.get_wait_time (p : Params) (store : Store LBState)
    (identifier : Option String) (now : ℚ) : Except PyExc ℚ := do
  let key ← getKey p.scope identifier
  match store key with
  | none => .ok 0
  | some data =>
    let elapsed := now - data.last_check
    let current_level := max 0 (data.water_level - elapsed * p.fill_rate)
    if current_level + 1 ≤ p.capacity then .ok 0
    else do
      let wait_time ← pyDiv ((current_level + 1) - p.capacity) p.fill_rate
      .ok (max 0 wait_time)

/-- Status dict returned by LeakyBucketLimiter.get_status; the absent branch
returns a dict without the `last_check` entry, hence the `Option`. -/
structure LBStatus where
  water_level : ℚ
  capacity : ℚ
  fill_rate : ℚ
  available : ℚ
  utilization_pct : ℚ
  last_check : Option ℚ
deriving DecidableEq, Repr

/-- LeakyBucketLimiter.get_status (leaky_bucket.py lines 117-155).
Modelled from the spec: `self._get_from_backend` is the State Store get. -/
def LeakyBucketLimiter.get_status (p : Params) (store : Store LBState)
    (identifier : Option String) (now : ℚ) : Except PyExc LBStatus := do
  let key ← getKey p.scope identifier
  match store key with
  | none => .ok ⟨0, p.capacity, p.fill_rate, p.capacity, 0, none⟩
  | some data =>
    let elapsed := now - data.last_check
    let current_level := max 0 (data.water_level - elapsed * p.fill_rate)
    let ratio ← pyDiv current_level p.capacity
    .ok ⟨pyRound2 current_level, p.capacity, p.fill_rate,
      pyRound2 (max 0 (p.capacity - current_level)), pyRound1 (ratio * 100),
      some data.last_check⟩

/-- QueueLimiter._get_data, in-memory branch (queue_limiter.py line 36):
`self._store.get(key, {"queue": [], "last_check": time.time()})`. -/
def QueueLimiter.get_data (store : Store QState) (key : String) (now : ℚ) :
    QState :=
  (store key).getD ⟨[], now⟩

/-- QueueLimiter._set_data, in-memory branch (queue_limiter.py line 47):
`self._store[key] = mapping`. -/
def QueueLimiter.set_data (store : Store QState) (key : String) (v : QState) :
    Store QState :=
  store.set key v

/-- QueueLimiter.allow_request (queue_limiter.py lines 49-75):
`requests_to_remove = int(time_elapsed * fill_rate)`; only when that count is
positive is the queue sliced and `last_check` advanced; the state is persisted
on both the admit and the reject path. -/
def QueueLimiter.allow_request (p : Params) (store : Store QState)
    (identifier : Option String) (now : ℚ) :
    Except PyExc (Bool × Store QState) := do
  let key ← getKey p.scope identifier
  let data := QueueLimiter.get_data store key now
  let queue := data.queue
  let last_check := data.last_check
  let time_elapsed := now - last_check
  let requests_to_remove := pyTrunc (time_elapsed * p.fill_rate)
  let (queue, last_check) :=
    if 0 < requests_to_remove then (queue.drop requests_to_remove.toNat, now)
    else (queue, last_check)
  if (queue.length : ℚ) < p.capacity then
    .ok (true, QueueLimiter.set_data store key ⟨queue ++ [now], last_check⟩)
  else
    .ok (false, QueueLimiter.set_data store key ⟨queue, last_check⟩)

/-- TokenBucketLimiter.allow_request as dispatched on an actual instance:
line 35 of token_bucket.py resolves the attribute `_get_from_backend` on
`self` before any state can be read. -/
def TokenBucketLimiter.allow_request_lookup (p : Params) (store : Store TBState)
    (identifier : Option String) (now : ℚ) :
    Except PyExc (Bool × Store TBState) := do
  let _ ← getKey p.scope identifier
  let _ ← getattrE TokenBucketLimiter.methods "_get_from_backend" ()
  TokenBucketLimiter.allow_request p store identifier now

/-- TokenBucketLimiter.reset as dispatched on an actual instance: line 78 of
token_bucket.py resolves `_delete_from_backend` on `self`. -/
def TokenBucketLimiter.reset_lookup (p : Params) (store : Store TBState)
    (identifier : Option String) : Except PyExc (Store TBState) := do
  let _ ← getKey p.scope identifier
  let _ ← getattrE TokenBucketLimiter.methods "_delete_from_backend" ()
  TokenBucketLimiter.reset p store identifier

/-- TokenBucketLimiter.get_wait_time as dispatched on an actual instance:
line 93 of token_bucket.py resolves `_get_from_backend` on `self`. -/
def TokenBucketLimiter.get_wait_time_lookup (p : Params) (store : Store TBState)
    (identifier : Option String) (now : ℚ) : Except PyExc ℚ := do
  let _ ← getKey p.scope identifier
  let _ ← getattrE TokenBucketLimiter.methods "_get_from_backend" ()
  TokenBucketLimiter.get_wait_time p store identifier now

/-- TokenBucketLimiter.get_status as dispatched on an actual instance:
line 128 of token_bucket.py resolves `_get_from_backend` on `self`. -/
def TokenBucketLimiter.get_status_lookup (p : Params) (store : Store TBState)
    (identifier : Option String) (now : ℚ) : Except PyExc TBStatus := do
  let _ ← getKey p.scope identifier
  let _ ← getattrE TokenBucketLimiter.methods "_get_from_backend" ()
  TokenBucketLimiter.get_status p store identifier now

/-- LeakyBucketLimiter.allow_request as dispatched on an actual instance:
line 35 of leaky_bucket.py resolves `_get_from_backend` on `self`. -/
def LeakyBucketLimiter.allow_request_lookup (p : Params) (store : Store LBState)
    (identifier : Option String) (now : ℚ) :
    Except PyExc (Bool × Store LBState) := do
  let _ ← getKey p.scope identifier
  let _ ← getattrE LeakyBucketLimiter.methods "_get_from_backend" ()
  LeakyBucketLimiter.allow_request p store identifier now

/-- LeakyBucketLimiter.reset as dispatched on an actual instance: line 80 of
leaky_bucket.py resolves `_delete_from_backend` on `self`. -/
def LeakyBucketLimiter.reset_lookup (p : Params) (store : Store LBState)
    (identifier : Option String) : Except PyExc (Store LBState) := do
  let _ ← getKey p.scope identifier
  let _ ← getattrE LeakyBucketLimiter.methods "_delete_from_backend" ()
  LeakyBucketLimiter.reset p store identifier

/-- LeakyBucketLimiter.get_wait_time as dispatched on an actual instance:
line 95 of leaky_bucket.py resolves `_get_from_backend` on `self`. -/
def LeakyBucketLimiter.get_wait_time_lookup (p : Params) (store : Store LBState)
    (identifier : Option String) (now : ℚ) : Except PyExc ℚ := do
  let _ ← getKey p.scope identifier
  let _ ← getattrE LeakyBucketLimiter.methods "_get_from_backend" ()
  LeakyBucketLimiter.get_wait_time p store identifier now

/-- LeakyBucketLimiter.get_status as dispatched on an actual instance:
line 130 of leaky_bucket.py resolves `_get_from_backend` on `self`. -/
def LeakyBucketLimiter.get_status_lookup (p : Params) (store : Store LBState)
    (identifier : Option String) (now : ℚ) : Except PyExc LBStatus := do
  let _ ← getKey p.scope identifier
  let _ ← getattrE LeakyBucketLimiter.methods "_get_from_backend" ()
  LeakyBucketLimiter.get_status p store identifier now

/-- A reset invoked on a `QueueLimiter` instance is a bare attribute lookup:
queue_limiter.py defines no `reset`, so resolution is all that can happen. -/
def QueueLimiter.reset_lookup : Except PyExc Unit :=
  getattrE QueueLimiter.methods "reset" ()

/-- Driving one limiter through a sequence of `allow_request` calls, each
given as (identifier, call instant); returns the decision sequence and the
final store. -/
def runCalls {σ : Type}
    (step : Store σ → Option String → ℚ → Except PyExc (Bool × Store σ)) :
    Store σ → List (Option String × ℚ) → Except PyExc (List Bool × Store σ)
  | st, [] => .ok ([], st)
  | st, (i, t) :: rest => do
    let (b, st') ← step st i t
    let (bs, st'') ← runCalls step st' rest
    .ok (b :: bs, st'')

/-- Request history applied to a `TokenBucketLimiter`. -/
def TokenBucketLimiter.run (p : Params) (store : Store TBState)
    (calls : List (Option String × ℚ)) :
    Except PyExc (List Bool × Store TBState) :=
  runCalls (TokenBucketLimiter.allow_request p) store calls

/-- Request history applied to a `LeakyBucketLimiter`. -/
def LeakyBucketLimiter.run (p : Params) (store : Store LBState)
    (calls : List (Option String × ℚ)) :
    Except PyExc (List Bool × Store LBState) :=
  runCalls (LeakyBucketLimiter.allow_request p) store calls

/-- Request history applied to a `QueueLimiter`. -/
def QueueLimiter.run (p : Params) (store : Store QState)
    (calls : List (Option String × ℚ)) :
    Except PyExc (List Bool × Store QState) :=
  runCalls (QueueLimiter.allow_request p) store calls

/-- Decision sequence of a run. -/
def decisionsOf {σ : Type} (r : Except PyExc (List Bool × Store σ)) :
    Except PyExc (List Bool) :=
  r.map Prod.fst

/-- Token-bucket step as the spec states it (§4.3 steps 2-5): absent state
initializes to capacity minus one and admits; otherwise the refilled count is
clamped at capacity, an admitted request consumes exactly one token, a
rejected one leaves it unchanged, and the new pair is persisted either way. -/
def tokenBucketSpecStep (capacity fill_rate : ℚ) (st : Option TBState)
    (now : ℚ) : Bool × TBState :=
  match st with
  | none => (true, ⟨capacity - 1, now⟩)
  | some data =>
    let tokens :=
      min capacity
        (data.tokens_remaining + (now - data.last_fill_time) * fill_rate)
    if 1 ≤ tokens then (true, ⟨tokens - 1, now⟩)
    else (false, ⟨tokens, now⟩)

/-- Sliding-window step as the claim states it: `expired_count` is the floor
of elapsed times fill rate, that many entries are dropped from the front, and
`last_eviction_time` advances only when at least one entry was actually
dropped. -/
def queueSpecStep (capacity fill_rate : ℚ) (st : QState) (now : ℚ) :
    Bool × QState :=
  let expired_count := ⌊(now - st.last_check) * fill_rate⌋
  let dropped := min expired_count.toNat st.queue.length
  let queue := st.queue.drop expired_count.toNat
  let last := if 0 < dropped then now else st.last_check
  if (queue.length : ℚ) < capacity then (true, ⟨queue ++ [now], last⟩)
  else (false, ⟨queue, last⟩)

/-- Sliding-window step as the code has it: `last_check` advances whenever
`expired_count` is positive, whether or not the queue held that many entries
(in particular on an empty queue). -/
def queueSpecStepAdjusted (capacity fill_rate : ℚ) (st : QState) (now : ℚ) :
    Bool × QState :=
  let expired_count := ⌊(now - st.last_check) * fill_rate⌋
  let queue := st.queue.drop expired_count.toNat
  let last := if 0 < expired_count then now else st.last_check
  if (queue.length : ℚ) < capacity then (true, ⟨queue ++ [now], last⟩)
  else (false, ⟨queue, last⟩)

/-- Scoped identities as the Key Scheme contract states them: `global` takes
no identifier, `user` and `ip` take an arbitrary string. -/
inductive ScopeId where
  | global
  | user (identifier : String)
  | ip (identifier : String)
deriving DecidableEq, Repr

/-- Key derivation over the well-scoped pairs, through `getKey`. -/
def deriveKey (s : ScopeId) : Except PyExc String :=
  match s with
  | .global => getKey "global" none
  | .user i => getKey "user" (some i)
  | .ip i => getKey "ip" (some i)

/-! ### Basic lemmas about the store and the numeric helpers -/

theorem Store.set_self {σ : Type} (s : Store σ) (k : String) (v : σ) :
    (s.set k v) k = some v := by
  simp [Store.set]

theorem Store.set_ne {σ : Type} (s : Store σ) (k k' : String) (v : σ)
    (h : k' ≠ k) : (s.set k v) k' = s k' := by
  simp [Store.set, h]

theorem Store.del_self {σ : Type} (s : Store σ) (k : String) :
    (s.del k) k = none := by
  simp [Store.del]

theorem Store.del_of_absent {σ : Type} (s : Store σ) (k : String)
    (h : s k = none) : ∀ k', (s.del k) k' = s k' := by
  intro k'
  by_cases hk : k' = k
  · subst hk; simp [Store.del, h]
  · simp [Store.del, hk]

theorem pyTrunc_eq_floor_of_nonneg {x : ℚ} (h : 0 ≤ x) : pyTrunc x = ⌊x⌋ := by
  simp [pyTrunc, h]

theorem pyTrunc_pos_iff (x : ℚ) : 0 < pyTrunc x ↔ 0 < ⌊x⌋ := by
  by_cases h : 0 ≤ x
  · rw [pyTrunc_eq_floor_of_nonneg h]
  · push_neg at h
    have hc : ⌈x⌉ ≤ 0 := Int.ceil_le.mpr (by exact_mod_cast h.le)
    have hf : ⌊x⌋ ≤ 0 := Int.floor_nonpos h.le
    rw [pyTrunc, if_neg (not_le.mpr h)]
    omega

theorem pyTrunc_eq_zero_of_lt_one {x : ℚ} (h0 : 0 ≤ x) (h1 : x < 1) :
    pyTrunc x = 0 := by
  rw [pyTrunc_eq_floor_of_nonneg h0]
  exact Int.floor_eq_zero_iff.mpr ⟨h0, h1⟩

theorem max_zero_sub_eq_sub_min (cap x : ℚ) :
    max 0 (cap - x) = cap - min cap x := by
  rcases le_total x cap with h | h
  · rw [min_eq_right h, max_eq_right (sub_nonneg.mpr h)]
  · rw [min_eq_left h, sub_self, max_eq_left (sub_nonpos.mpr h)]

/-! ### One-step characterizations of the allow_request operations -/

theorem tb_allow_none (p : Params) (store : Store TBState)
    (identifier : Option String) (now : ℚ) (key : String)
    (hkey : getKey p.scope identifier = .ok key) (h : store key = none) :
    TokenBucketLimiter.allow_request p store identifier now =
      .ok (true, store.set key ⟨p.capacity - 1, now⟩) := by
  simp [TokenBucketLimiter.allow_request, hkey, h, bind, Except.bind]

theorem tb_allow_some (p : Params) (store : Store TBState)
    (identifier : Option String) (now : ℚ) (key : String) (d : TBState)
    (hkey : getKey p.scope identifier = .ok key) (h : store key = some d) :
    TokenBucketLimiter.allow_request p store identifier now =
      (if 1 ≤ min p.capacity
            (d.tokens_remaining + (now - d.last_fill_time) * p.fill_rate) then
        .ok (true, store.set key
          ⟨min p.capacity
            (d.tokens_remaining + (now - d.last_fill_time) * p.fill_rate) - 1,
            now⟩)
      else
        .ok (false, store.set key
          ⟨min p.capacity
            (d.tokens_remaining + (now - d.last_fill_time) * p.fill_rate),
            now⟩)) := by
  simp only [TokenBucketLimiter.allow_request, hkey, h, bind, Except.bind]

theorem lb_allow_none (p : Params) (store : Store LBState)
    (identifier : Option String) (now : ℚ) (key : String)
    (hkey : getKey p.scope identifier = .ok key) (h : store key = none) :
    LeakyBucketLimiter.allow_request p store identifier now =
      .ok (true, store.set key ⟨1, now⟩) := by
  simp [LeakyBucketLimiter.allow_request, hkey, h, bind, Except.bind]

theorem lb_allow_some (p : Params) (store : Store LBState)
    (identifier : Option String) (now : ℚ) (key : String) (d : LBState)
    (hkey : getKey p.scope identifier = .ok key) (h : store key = some d) :
    LeakyBucketLimiter.allow_request p store identifier now =
      (if max 0 (d.water_level - (now - d.last_check) * p.fill_rate) + 1
            ≤ p.capacity then
        .ok (true, store.set key
          ⟨max 0 (d.water_level - (now - d.last_check) * p.fill_rate) + 1,
            now⟩)
      else
        .ok (false, store.set key
          ⟨max 0 (d.water_level - (now - d.last_check) * p.fill_rate), now⟩)) := by
  simp only [LeakyBucketLimiter.allow_request, hkey, h, bind, Except.bind]

theorem q_allow (p : Params) (store : Store QState)
    (identifier : Option String) (now : ℚ) (key : String)
    (hkey : getKey p.scope identifier = .ok key) :
    QueueLimiter.allow_request p store identifier now =
      (let data := QueueLimiter.get_data store key now
       let rm := pyTrunc ((now - data.last_check) * p.fill_rate)
       let qd := if 0 < rm then data.queue.drop rm.toNat else data.queue
       let lc := if 0 < rm then now else data.last_check
       if (qd.length : ℚ) < p.capacity then
         .ok (true, store.set key ⟨qd ++ [now], lc⟩)
       else
         .ok (false, store.set key ⟨qd, lc⟩)) := by
  simp only [QueueLimiter.allow_request, hkey, bind, Except.bind,
    QueueLimiter.set_data]
  by_cases hrm :
      0 < pyTrunc ((now - (QueueLimiter.get_data store key now).last_check)
        * p.fill_rate) <;>
    simp [hrm]

/-! ### Run lemmas -/

theorem runCalls_nil {σ : Type}
    (step : Store σ → Option String → ℚ → Except PyExc (Bool × Store σ))
    (st : Store σ) : runCalls step st [] = .ok ([], st) := rfl

theorem runCalls_cons_ok {σ : Type}
    (step : Store σ → Option String → ℚ → Except PyExc (Bool × Store σ))
    (st st' : Store σ) (i : Option String) (t : ℚ) (b : Bool)
    (rest : List (Option String × ℚ)) (h : step st i t = .ok (b, st')) :
    runCalls step st ((i, t) :: rest) =
      (runCalls step st' rest).map (fun r => (b :: r.1, r.2)) := by
  simp only [runCalls, h, bind, Except.bind]
  cases hr : runCalls step st' rest with
  | ok v => simp [Except.map]
  | error e => simp [Except.map]

/-! ### Key-scheme lemmas -/

theorem string_append_cancel (p a b : String) (h : p ++ a = p ++ b) : a = b := by
  have hd := congrArg String.data h
  rw [String.data_append, String.data_append] at hd
  exact String.ext (List.append_cancel_left hd)

theorem key_user_ne_ip (a b : String) :
    "ratelimit:user:" ++ a ≠ "ratelimit:ip:" ++ b := by
  intro h
  have hd := congrArg String.data h
  rw [String.data_append, String.data_append] at hd
  have ht := congrArg (List.take 13) hd
  rw [List.take_append_eq_append_take, List.take_append_eq_append_take] at ht
  simp at ht

theorem key_user_ne_global (a : String) :
    "ratelimit:user:" ++ a ≠ "ratelimit:global" := by
  intro h
  have hd := congrArg String.data h
  rw [String.data_append] at hd
  have ht := congrArg (List.take 15) hd
  rw [List.take_append_eq_append_take] at ht
  simp at ht

theorem key_ip_ne_global (a : String) :
    "ratelimit:ip:" ++ a ≠ "ratelimit:global" := by
  intro h
  have hd := congrArg String.data h
  rw [String.data_append] at hd
  have ht := congrArg (List.take 13) hd
  rw [List.take_append_eq_append_take] at ht
  simp at ht

/-- C9: key derivation is a pure function of (scope, identifier); scope
`global` maps every identifier to the fixed key `ratelimit:global`, scopes
`user` and `ip` map to `ratelimit:<scope>:<identifier>`, any other scope
raises `ValueError`, and the derivation is injective on well-scoped pairs. -/
theorem claim_C9_key_scheme :
    (∀ identifier, getKey "global" identifier = .ok "ratelimit:global")
    ∧ (∀ s, getKey "user" (some s) = .ok ("ratelimit:user:" ++ s))
    ∧ (∀ s, getKey "ip" (some s) = .ok ("ratelimit:ip:" ++ s))
    ∧ (∀ scope identifier, scope ≠ "user" → scope ≠ "ip" → scope ≠ "global" →
        getKey scope identifier = .error (.valueError "Invalid scope"))
    ∧ (∀ a b : ScopeId, deriveKey a = deriveKey b → a = b) := by
  have hg : deriveKey .global = .ok "ratelimit:global" := rfl
  have hu : ∀ s, deriveKey (.user s) = .ok ("ratelimit:user:" ++ s) :=
    fun _ => rfl
  have hi : ∀ s, deriveKey (.ip s) = .ok ("ratelimit:ip:" ++ s) :=
    fun _ => rfl
  refine ⟨fun _ => rfl, fun _ => rfl, fun _ => rfl, ?_, ?_⟩
  · intro scope identifier h1 h2 h3
    simp [getKey, h1, h2, h3]
  · intro a b h
    cases a with
    | global => cases b with
      | global => rfl
      | user j =>
        rw [hg, hu j] at h
        simp only [Except.ok.injEq] at h
        exact absurd h.symm (key_user_ne_global _)
      | ip j =>
        rw [hg, hi j] at h
        simp only [Except.ok.injEq] at h
        exact absurd h.symm (key_ip_ne_global _)
    | user i => cases b with
      | global =>
        rw [hg, hu i] at h
        simp only [Except.ok.injEq] at h
        exact absurd h (key_user_ne_global _)
      | user j =>
        rw [hu i, hu j] at h
        simp only [Except.ok.injEq] at h
        exact congrArg ScopeId.user (string_append_cancel _ _ _ h)
      | ip j =>
        rw [hu i, hi j] at h
        simp only [Except.ok.injEq] at h
        exact absurd h (key_user_ne_ip _ _)
    | ip i => cases b with
      | global =>
        rw [hg, hi i] at h
        simp only [Except.ok.injEq] at h
        exact absurd h (key_ip_ne_global _)
      | user j =>
        rw [hi i, hu j] at h
        simp only [Except.ok.injEq] at h
        exact absurd h.symm (key_user_ne_ip _ _)
      | ip j =>
        rw [hi i, hi j] at h
        simp only [Except.ok.injEq] at h
        exact congrArg ScopeId.ip (string_append_cancel _ _ _ h)

/-- Witness for C9 at concrete inputs: a non-scope string is rejected, and
injectivity applied at a concrete pair. -/
theorem claim_C9_witness :
    getKey "admin" (some "x") = .error (.valueError "Invalid scope")
    ∧ ScopeId.user "alice" = ScopeId.user "alice" :=
  ⟨claim_C9_key_scheme.2.2.2.1 "admin" (some "x") (by decide) (by decide)
      (by decide),
   claim_C9_key_scheme.2.2.2.2 (ScopeId.user "alice") (ScopeId.user "alice")
      rfl⟩

/-- C7 counterexample: construction with non-positive capacity (token
bucket), negative fill rate (leaky bucket), or both zero (queue limiter)
succeeds — no `InvalidConfiguration` error exists anywhere in these
modules, contradicting the claim that such configurations are rejected at
construction time. -/
theorem claim_C7_counterexample :
    TokenBucketLimiter.init 0 1 "user" = .ok (⟨0, 1, "user"⟩, 60)
    ∧ LeakyBucketLimiter.init (-5) (-1) "user" = .ok (⟨-5, -1, "user"⟩, 70)
    ∧ QueueLimiter.init 0 0 "user" = .ok ⟨0, 0, "user"⟩ := by
  refine ⟨?_, ?_, rfl⟩ <;>
    norm_num [TokenBucketLimiter.init, LeakyBucketLimiter.init, pyDiv,
      pyTrunc, bind, Except.bind]

/-- C7 (amended): the constructors perform no validation of `capacity` or
`fill_rate`; every configuration is accepted except that the token and leaky
bucket constructors raise `ZeroDivisionError` (not `InvalidConfiguration`)
when `fill_rate = 0`, from the `_ttl` division; the queue limiter accepts
even that. -/
theorem claim_C7_no_validation (capacity fill_rate : ℚ) (scope : String) :
    TokenBucketLimiter.init capacity fill_rate scope =
      (if fill_rate = 0 then .error .zeroDivisionError
       else .ok (⟨capacity, fill_rate, scope⟩,
         pyTrunc ((capacity / fill_rate) * 2) + 60))
    ∧ LeakyBucketLimiter.init capacity fill_rate scope =
      (if fill_rate = 0 then .error .zeroDivisionError
       else .ok (⟨capacity, fill_rate, scope⟩,
         pyTrunc ((capacity / fill_rate) * 2) + 60))
    ∧ QueueLimiter.init capacity fill_rate scope =
        .ok ⟨capacity, fill_rate, scope⟩ := by
  refine ⟨?_, ?_, rfl⟩ <;> by_cases h : fill_rate = 0 <;>
    simp [TokenBucketLimiter.init, LeakyBucketLimiter.init, pyDiv, h, bind,
      Except.bind]

/-- C3: TokenBucketLimiter.allow_request performs, for any identifier whose
key derivation succeeds, exactly the step the spec describes (absent-state
initialization to capacity minus one and admission; otherwise clamped refill,
consumption of exactly one token on admission, unchanged count on rejection,
and persistence of the new pair in both cases). -/
theorem claim_C3_token_step (p : Params) (store : Store TBState)
    (identifier : Option String) (now : ℚ) (key : String)
    (hkey : getKey p.scope identifier = .ok key) :
    TokenBucketLimiter.allow_request p store identifier now =
      .ok ((tokenBucketSpecStep p.capacity p.fill_rate (store key) now).1,
        store.set key
          (tokenBucketSpecStep p.capacity p.fill_rate (store key) now).2) := by
  cases h : store key with
  | none =>
    rw [tb_allow_none p store identifier now key hkey h]
    simp [tokenBucketSpecStep]
  | some d =>
    rw [tb_allow_some p store identifier now key d hkey h]
    simp only [tokenBucketSpecStep]
    split <;> simp

/-- Witness for C3 at a concrete input. -/
theorem claim_C3_witness :
    TokenBucketLimiter.allow_request ⟨5, 1, "user"⟩ emptyStore (some "u") 0 =
      .ok ((tokenBucketSpecStep 5 1 (emptyStore "ratelimit:user:u") 0).1,
        Store.set emptyStore "ratelimit:user:u"
          (tokenBucketSpecStep 5 1 (emptyStore "ratelimit:user:u") 0).2) :=
  claim_C3_token_step ⟨5, 1, "user"⟩ emptyStore (some "u") 0
    "ratelimit:user:u" rfl

/-- C4 counterexample: with capacity 2, fill rate 1, stored state
`{queue: [], last_check: 0}` and a call at `now = 5`, the code computes
`requests_to_remove = 5 > 0` and advances `last_check` to 5 even though the
empty queue had no entry to drop, while the claimed step (advance only when
at least one entry was actually dropped) keeps `last_check = 0`. -/
theorem claim_C4_counterexample :
    (QueueLimiter.allow_request ⟨2, 1, "user"⟩
        (Store.set emptyStore "ratelimit:user:u" ⟨[], 0⟩) (some "u") 5).map
        (fun r => (r.1, r.2 "ratelimit:user:u"))
      = .ok (true, some ⟨[5], 5⟩)
    ∧ queueSpecStep 2 1 ⟨[], 0⟩ 5 = (true, ⟨[5], 0⟩)
    ∧ QState.mk [5] 5 ≠ QState.mk [5] 0 := by
  refine ⟨?_, ?_, by norm_num⟩
  · rw [q_allow ⟨2, 1, "user"⟩ (Store.set emptyStore "ratelimit:user:u" ⟨[], 0⟩)
      (some "u") 5 "ratelimit:user:u" rfl]
    norm_num [QueueLimiter.get_data, Store.set_self, pyTrunc, Except.map,
      Store.set]
  · norm_num [queueSpecStep]

/-- C4 (amended): QueueLimiter.allow_request performs the claimed step except
that `last_eviction_time` advances whenever the computed `expired_count` is
positive, even when the stored queue held fewer entries than that (including
none); with that adjustment the step semantics holds for every state. -/
theorem claim_C4_queue_step (p : Params) (store : Store QState)
    (identifier : Option String) (now : ℚ) (key : String)
    (hkey : getKey p.scope identifier = .ok key) :
    QueueLimiter.allow_request p store identifier now =
      .ok ((queueSpecStepAdjusted p.capacity p.fill_rate
          (QueueLimiter.get_data store key now) now).1,
        store.set key (queueSpecStepAdjusted p.capacity p.fill_rate
          (QueueLimiter.get_data store key now) now).2) := by
  rw [q_allow p store identifier now key hkey]
  simp only [queueSpecStepAdjusted]
  set st := QueueLimiter.get_data store key now with hst
  set x := (now - st.last_check) * p.fill_rate with hx
  by_cases hpos : 0 < ⌊x⌋
  · have htr : pyTrunc x = ⌊x⌋ := by
      rcases le_or_lt 0 x with h | h
      · exact pyTrunc_eq_floor_of_nonneg h
      · exfalso
        have := Int.floor_nonpos h.le
        omega
    rw [htr]
    simp only [if_pos hpos]
    split <;> rfl
  · have h2 : ¬ 0 < pyTrunc x := by
      rw [pyTrunc_pos_iff]
      exact hpos
    have hdrop : (⌊x⌋).toNat = 0 := by
      omega
    simp only [if_neg h2, if_neg hpos, hdrop, List.drop_zero]
    split <;> rfl

/-- Witness for C4 at a concrete input. -/
theorem claim_C4_witness :
    QueueLimiter.allow_request ⟨2, 1, "user"⟩ emptyStore (some "u") 0 =
      .ok ((queueSpecStepAdjusted 2 1
          (QueueLimiter.get_data emptyStore "ratelimit:user:u" 0) 0).1,
        Store.set emptyStore "ratelimit:user:u"
          (queueSpecStepAdjusted 2 1
            (QueueLimiter.get_data emptyStore "ratelimit:user:u" 0) 0).2) :=
  claim_C4_queue_step ⟨2, 1, "user"⟩ emptyStore (some "u") 0
    "ratelimit:user:u" rfl

/-- C1: the backend accessors `_get_from_backend`, `_set_to_backend` and
`_delete_from_backend` resolve on no class in the hierarchy (BaseRateLimiter
defines only `__init__` and `_get_key`), so every public operation of
TokenBucketLimiter and LeakyBucketLimiter raises `AttributeError` at its
first backend access instead of returning a result, for every identifier
whose key derivation succeeds and every store state. -/
theorem claim_C1_missing_backend (p : Params) (stb : Store TBState)
    (slb : Store LBState) (identifier : Option String) (now : ℚ) (key : String)
    (hkey : getKey p.scope identifier = .ok key) :
    ("_get_from_backend" ∉ TokenBucketLimiter.methods
      ∧ "_set_to_backend" ∉ TokenBucketLimiter.methods
      ∧ "_delete_from_backend" ∉ TokenBucketLimiter.methods
      ∧ "_get_from_backend" ∉ LeakyBucketLimiter.methods
      ∧ "_set_to_backend" ∉ LeakyBucketLimiter.methods
      ∧ "_delete_from_backend" ∉ LeakyBucketLimiter.methods)
    ∧ TokenBucketLimiter.allow_request_lookup p stb identifier now
        = .error (.attributeError "_get_from_backend")
    ∧ TokenBucketLimiter.get_wait_time_lookup p stb identifier now
        = .error (.attributeError "_get_from_backend")
    ∧ TokenBucketLimiter.get_status_lookup p stb identifier now
        = .error (.attributeError "_get_from_backend")
    ∧ TokenBucketLimiter.reset_lookup p stb identifier
        = .error (.attributeError "_delete_from_backend")
    ∧ LeakyBucketLimiter.allow_request_lookup p slb identifier now
        = .error (.attributeError "_get_from_backend")
    ∧ LeakyBucketLimiter.get_wait_time_lookup p slb identifier now
        = .error (.attributeError "_get_from_backend")
    ∧ LeakyBucketLimiter.get_status_lookup p slb identifier now
        = .error (.attributeError "_get_from_backend")
    ∧ LeakyBucketLimiter.reset_lookup p slb identifier
        = .error (.attributeError "_delete_from_backend") := by
  have hg : ("_get_from_backend" : String) ∉ TokenBucketLimiter.methods := by
    decide
  have hd : ("_delete_from_backend" : String) ∉ TokenBucketLimiter.methods := by
    decide
  have hg' : ("_get_from_backend" : String) ∉ LeakyBucketLimiter.methods := by
    decide
  have hd' : ("_delete_from_backend" : String) ∉ LeakyBucketLimiter.methods := by
    decide
  refine ⟨⟨hg, by decide, hd, hg', by decide, hd'⟩, ?_, ?_, ?_, ?_, ?_, ?_,
    ?_, ?_⟩
  · simp [TokenBucketLimiter.allow_request_lookup, hkey, getattrE, hg, bind,
      Except.bind]
  · simp [TokenBucketLimiter.get_wait_time_lookup, hkey, getattrE, hg, bind,
      Except.bind]
  · simp [TokenBucketLimiter.get_status_lookup, hkey, getattrE, hg, bind,
      Except.bind]
  · simp [TokenBucketLimiter.reset_lookup, hkey, getattrE, hd, bind,
      Except.bind]
  · simp [LeakyBucketLimiter.allow_request_lookup, hkey, getattrE, hg', bind,
      Except.bind]
  · simp [LeakyBucketLimiter.get_wait_time_lookup, hkey, getattrE, hg', bind,
      Except.bind]
  · simp [LeakyBucketLimiter.get_status_lookup, hkey, getattrE, hg', bind,
      Except.bind]
  · simp [LeakyBucketLimiter.reset_lookup, hkey, getattrE, hd', bind,
      Except.bind]

/-- Witness for C1 at a concrete input. -/
theorem claim_C1_witness :
    TokenBucketLimiter.allow_request_lookup ⟨5, 1, "user"⟩ emptyStore
        (some "u") 0 = .error (.attributeError "_get_from_backend") :=
  (claim_C1_missing_backend ⟨5, 1, "user"⟩ emptyStore emptyStore (some "u") 0
    "ratelimit:user:u" rfl).2.1

/-- C8 counterexample: the sliding-window queue exposes no reset operation at
all — `reset` resolves on no class in QueueLimiter's hierarchy, so invoking
it raises `AttributeError`, contradicting the claim that every algorithm
exposes reset. -/
theorem claim_C8_counterexample :
    QueueLimiter.reset_lookup = .error (.attributeError "reset")
    ∧ "reset" ∉ QueueLimiter.methods := by
  refine ⟨?_, by decide⟩
  have h : ("reset" : String) ∉ QueueLimiter.methods := by decide
  simp [QueueLimiter.reset_lookup, getattrE, h]

/-- C8 (amended): TokenBucketLimiter and LeakyBucketLimiter expose reset
(with the store-delete behaviour of the spec's State Store standing in for
the missing `_delete_from_backend`): resetting an absent identifier leaves
every key of the store unchanged, and the next allow_request after a reset
takes the first-ever-request branch (initializing capacity minus one tokens,
respectively water level one). QueueLimiter exposes no reset operation. -/
theorem claim_C8_reset (p : Params) (stb : Store TBState) (slb : Store LBState)
    (identifier : Option String) (now : ℚ) (key : String)
    (hkey : getKey p.scope identifier = .ok key) :
    (TokenBucketLimiter.reset p stb identifier = .ok (stb.del key)
      ∧ (stb key = none → ∀ k', (stb.del key) k' = stb k')
      ∧ TokenBucketLimiter.allow_request p (stb.del key) identifier now
          = .ok (true, (stb.del key).set key ⟨p.capacity - 1, now⟩))
    ∧ (LeakyBucketLimiter.reset p slb identifier = .ok (slb.del key)
      ∧ (slb key = none → ∀ k', (slb.del key) k' = slb k')
      ∧ LeakyBucketLimiter.allow_request p (slb.del key) identifier now
          = .ok (true, (slb.del key).set key ⟨1, now⟩)) := by
  refine ⟨⟨?_, fun h => Store.del_of_absent stb key h, ?_⟩,
    ⟨?_, fun h => Store.del_of_absent slb key h, ?_⟩⟩
  · simp [TokenBucketLimiter.reset, hkey, bind, Except.bind]
  · exact tb_allow_none p (stb.del key) identifier now key hkey
      (Store.del_self stb key)
  · simp [LeakyBucketLimiter.reset, hkey, bind, Except.bind]
  · exact lb_allow_none p (slb.del key) identifier now key hkey
      (Store.del_self slb key)

/-- Witness for C8 at a concrete input. -/
theorem claim_C8_witness :
    TokenBucketLimiter.reset ⟨5, 1, "user"⟩ emptyStore (some "u")
        = .ok (Store.del emptyStore "ratelimit:user:u")
    ∧ ((emptyStore : Store TBState) "ratelimit:user:u" = none →
        ∀ k', (Store.del (emptyStore : Store TBState) "ratelimit:user:u") k'
          = emptyStore k')
    ∧ TokenBucketLimiter.allow_request ⟨5, 1, "user"⟩
        (Store.del emptyStore "ratelimit:user:u") (some "u") 0
        = .ok (true, (Store.del emptyStore "ratelimit:user:u").set
            "ratelimit:user:u" ⟨(5 : ℚ) - 1, 0⟩) :=
  (claim_C8_reset ⟨5, 1, "user"⟩ emptyStore emptyStore (some "u") 0
    "ratelimit:user:u" rfl).1

/-! ### Bounded state of the sliding-window queue -/

theorem q_step_preserves (p : Params) (C : ℕ) (hcap : p.capacity = (C : ℚ))
    (store : Store QState) (i : Option String) (t : ℚ) (b : Bool)
    (store'' : Store QState)
    (h0 : ∀ k st, store k = some st → st.queue.length ≤ C)
    (hstep : QueueLimiter.allow_request p store i t = .ok (b, store'')) :
    ∀ k st, store'' k = some st → st.queue.length ≤ C := by
  cases hk : getKey p.scope i with
  | error e =>
    rw [QueueLimiter.allow_request] at hstep
    simp [hk, bind, Except.bind] at hstep
  | ok key =>
    rw [q_allow p store i t key hk] at hstep
    set st0 := QueueLimiter.get_data store key t with hst0
    set rm := pyTrunc ((t - st0.last_check) * p.fill_rate) with hrm
    have hbase : st0.queue.length ≤ C := by
      cases hs : store key with
      | none => simp [hst0, QueueLimiter.get_data, hs]
      | some s =>
        have := h0 key s hs
        simp only [hst0, QueueLimiter.get_data, hs, Option.getD_some]
        exact this
    set qd := if 0 < rm then st0.queue.drop rm.toNat else st0.queue with hqd
    have hqd_le : qd.length ≤ C := by
      rw [hqd]
      split
      · exact le_trans (by simp) hbase
      · exact hbase
    by_cases hlen : ((qd.length : ℚ) < p.capacity)
    · rw [if_pos hlen] at hstep
      have hlt : qd.length < C := by
        rw [hcap] at hlen
        exact_mod_cast hlen
      simp only [Except.ok.injEq, Prod.mk.injEq] at hstep
      obtain ⟨-, hstore⟩ := hstep
      subst hstore
      intro k st hk'
      by_cases hkk : k = key
      · subst hkk
        rw [Store.set_self] at hk'
        cases hk'
        simpa using hlt
      · rw [Store.set_ne _ _ _ _ hkk] at hk'
        exact h0 k st hk'
    · rw [if_neg hlen] at hstep
      simp only [Except.ok.injEq, Prod.mk.injEq] at hstep
      obtain ⟨-, hstore⟩ := hstep
      subst hstore
      intro k st hk'
      by_cases hkk : k = key
      · subst hkk
        rw [Store.set_self] at hk'
        cases hk'
        exact hqd_le
      · rw [Store.set_ne _ _ _ _ hkk] at hk'
        exact h0 k st hk'

/-- C6: for every sequence of QueueLimiter.allow_request calls with
nondecreasing call times and any identifiers, every key's stored entries
sequence always has length at most the (natural-number) capacity, starting
from any store already satisfying the bound — in particular the absent/empty
state: every admit appends one entry only when the length is below capacity,
and eviction only shortens the queue. -/
theorem claim_C6_bounded_queue (p : Params) (C : ℕ)
    (hcap : p.capacity = (C : ℚ)) (calls : List (Option String × ℚ))
    (hmono : (calls.map Prod.snd).Chain' (· ≤ ·))
    (store store' : Store QState) (ds : List Bool)
    (h0 : ∀ k st, store k = some st → st.queue.length ≤ C)
    (hrun : QueueLimiter.run p store calls = .ok (ds, store')) :
    ∀ k st, store' k = some st → st.queue.length ≤ C := by
  induction calls generalizing store ds with
  | nil =>
    rw [QueueLimiter.run, runCalls_nil] at hrun
    simp only [Except.ok.injEq, Prod.mk.injEq] at hrun
    obtain ⟨-, hstore⟩ := hrun
    subst hstore
    exact h0
  | cons head rest ih =>
    obtain ⟨i, t⟩ := head
    cases hstep : QueueLimiter.allow_request p store i t with
    | error e =>
      rw [QueueLimiter.run, runCalls] at hrun
      simp [hstep, bind, Except.bind] at hrun
    | ok r =>
      obtain ⟨b, store1⟩ := r
      rw [QueueLimiter.run, runCalls_cons_ok _ store store1 i t b rest hstep]
        at hrun
      cases hrest : runCalls (QueueLimiter.allow_request p) store1 rest with
      | error e =>
        rw [hrest] at hrun
        simp [Except.map] at hrun
      | ok r2 =>
        obtain ⟨ds2, store2⟩ := r2
        rw [hrest] at hrun
        simp only [Except.map, Except.ok.injEq, Prod.mk.injEq] at hrun
        obtain ⟨-, hstore⟩ := hrun
        subst hstore
        have hmono' : (rest.map Prod.snd).Chain' (· ≤ ·) := by
          simp only [List.map_cons] at hmono
          exact hmono.tail
        exact ih hmono' store1 ds2
          (q_step_preserves p C hcap store i t b store1 h0 hstep) hrest

/-- Witness for C6 at a concrete input: one call on the empty store, with the
resulting record inspected at its key. -/
theorem claim_C6_witness :
    (⟨[(0 : ℚ)], 0⟩ : QState).queue.length ≤ 2 :=
  claim_C6_bounded_queue ⟨2, 1, "user"⟩ 2 (by norm_num) [(some "u", 0)]
    (by simp) emptyStore (Store.set emptyStore "ratelimit:user:u" ⟨[0], 0⟩)
    [true] (fun k st h => by simp [emptyStore] at h)
    (by
      norm_num [QueueLimiter.run, runCalls, QueueLimiter.allow_request,
        QueueLimiter.get_data, QueueLimiter.set_data, getKey, pyStr,
        emptyStore, pyTrunc, bind, Except.bind]
      rfl)
    "ratelimit:user:u" ⟨[0], 0⟩ (Store.set_self _ _ _)

/-! ### Duality of token bucket and leaky bucket -/

/-- Complementarity relation between a token-bucket store and a leaky-bucket
store at one key: both absent, or present with the same timestamp and token
count plus water level equal to the capacity. -/
def tblbRel (cap : ℚ) (key : String) (s1 : Store TBState)
    (s2 : Store LBState) : Prop :=
  (s1 key = none ∧ s2 key = none)
  ∨ ∃ tokens water tl, s1 key = some ⟨tokens, tl⟩ ∧ s2 key = some ⟨water, tl⟩
      ∧ tokens + water = cap

theorem tblb_step (p : Params) (identifier : Option String) (key : String)
    (now : ℚ) (hkey : getKey p.scope identifier = .ok key)
    (s1 : Store TBState) (s2 : Store LBState)
    (hrel : tblbRel p.capacity key s1 s2) :
    ∃ b s1' s2',
      TokenBucketLimiter.allow_request p s1 identifier now = .ok (b, s1')
      ∧ LeakyBucketLimiter.allow_request p s2 identifier now = .ok (b, s2')
      ∧ tblbRel p.capacity key s1' s2' := by
  rcases hrel with ⟨h1, h2⟩ | ⟨tokens, water, tl, h1, h2, hsum⟩
  · refine ⟨true, _, _, tb_allow_none p s1 identifier now key hkey h1,
      lb_allow_none p s2 identifier now key hkey h2, Or.inr ?_⟩
    exact ⟨p.capacity - 1, 1, now, Store.set_self _ _ _, Store.set_self _ _ _,
      by ring⟩
  · rw [tb_allow_some p s1 identifier now key ⟨tokens, tl⟩ hkey h1,
      lb_allow_some p s2 identifier now key ⟨water, tl⟩ hkey h2]
    dsimp only
    have hwater : water = p.capacity - tokens := by linarith
    have hlevel :
        max 0 (water - (now - tl) * p.fill_rate)
          = p.capacity - min p.capacity (tokens + (now - tl) * p.fill_rate) := by
      rw [hwater, show p.capacity - tokens - (now - tl) * p.fill_rate
          = p.capacity - (tokens + (now - tl) * p.fill_rate) by ring]
      exact max_zero_sub_eq_sub_min _ _
    have hdec :
        (max 0 (water - (now - tl) * p.fill_rate) + 1 ≤ p.capacity)
          ↔ (1 ≤ min p.capacity (tokens + (now - tl) * p.fill_rate)) := by
      rw [hlevel]
      constructor <;> intro h <;> linarith
    by_cases hadm : 1 ≤ min p.capacity (tokens + (now - tl) * p.fill_rate)
    · rw [if_pos hadm, if_pos (hdec.mpr hadm)]
      refine ⟨true, _, _, rfl, rfl, Or.inr ?_⟩
      refine ⟨min p.capacity (tokens + (now - tl) * p.fill_rate) - 1,
        max 0 (water - (now - tl) * p.fill_rate) + 1, now,
        Store.set_self _ _ _, Store.set_self _ _ _, ?_⟩
      rw [hlevel]
      ring
    · rw [if_neg hadm, if_neg (fun h => hadm (hdec.mp h))]
      refine ⟨false, _, _, rfl, rfl, Or.inr ?_⟩
      refine ⟨min p.capacity (tokens + (now - tl) * p.fill_rate),
        max 0 (water - (now - tl) * p.fill_rate), now,
        Store.set_self _ _ _, Store.set_self _ _ _, ?_⟩
      rw [hlevel]
      ring

theorem tblb_run (p : Params) (identifier : Option String) (key : String)
    (hkey : getKey p.scope identifier = .ok key) :
    ∀ (ts : List ℚ) (s1 : Store TBState) (s2 : Store LBState),
      tblbRel p.capacity key s1 s2 →
      ∃ ds s1' s2',
        TokenBucketLimiter.run p s1 (ts.map fun t => (identifier, t))
          = .ok (ds, s1')
        ∧ LeakyBucketLimiter.run p s2 (ts.map fun t => (identifier, t))
          = .ok (ds, s2')
        ∧ tblbRel p.capacity key s1' s2' := by
  intro ts
  induction ts with
  | nil => exact fun s1 s2 h => ⟨[], s1, s2, rfl, rfl, h⟩
  | cons t ts ih =>
    intro s1 s2 h
    obtain ⟨b, s1m, s2m, h1, h2, hrel⟩ :=
      tblb_step p identifier key t hkey s1 s2 h
    obtain ⟨ds, s1', s2', hr1, hr2, hrel'⟩ := ih s1m s2m hrel
    refine ⟨b :: ds, s1', s2', ?_, ?_, hrel'⟩
    · simp only [List.map_cons, TokenBucketLimiter.run] at hr1 ⊢
      rw [runCalls_cons_ok _ s1 s1m identifier t b _ h1, hr1]
      rfl
    · simp only [List.map_cons, LeakyBucketLimiter.run] at hr2 ⊢
      rw [runCalls_cons_ok _ s2 s2m identifier t b _ h2, hr2]
      rfl

/-- C5: a TokenBucketLimiter and a LeakyBucketLimiter with the same capacity
and fill rate, driven from the absent state by the same sequence of
allow_request call timestamps for the same identifier, produce the identical
admit/reject decision sequence, and at every observation point (the theorem
quantifies over all histories, hence over every prefix) the stored
tokens_remaining plus water_level equals the capacity, with equal stored
timestamps. -/
theorem claim_C5_duality (p : Params) (identifier : Option String)
    (key : String) (hkey : getKey p.scope identifier = .ok key)
    (ts : List ℚ) :
    ∃ ds s1' s2',
      TokenBucketLimiter.run p emptyStore (ts.map fun t => (identifier, t))
        = .ok (ds, s1')
      ∧ LeakyBucketLimiter.run p emptyStore (ts.map fun t => (identifier, t))
        = .ok (ds, s2')
      ∧ ((s1' key = none ∧ s2' key = none)
        ∨ ∃ tokens water tl, s1' key = some ⟨tokens, tl⟩
            ∧ s2' key = some ⟨water, tl⟩ ∧ tokens + water = p.capacity) :=
  tblb_run p identifier key hkey ts emptyStore emptyStore
    (Or.inl ⟨rfl, rfl⟩)

/-- Witness for C5 at a concrete input. -/
theorem claim_C5_witness :
    ∃ ds sA sB,
      TokenBucketLimiter.run ⟨5, 1, "user"⟩ emptyStore
          ([0, 1/2].map fun t => ((some "u" : Option String), t))
        = .ok (ds, sA)
      ∧ LeakyBucketLimiter.run ⟨5, 1, "user"⟩ emptyStore
          ([0, 1/2].map fun t => ((some "u" : Option String), t))
        = .ok (ds, sB)
      ∧ ((sA "ratelimit:user:u" = none ∧ sB "ratelimit:user:u" = none)
        ∨ ∃ tokens water tl, sA "ratelimit:user:u" = some ⟨tokens, tl⟩
            ∧ sB "ratelimit:user:u" = some ⟨water, tl⟩ ∧ tokens + water = 5) :=
  claim_C5_duality ⟨5, 1, "user"⟩ (some "u") "ratelimit:user:u" rfl [0, 1/2]

/-! ### Burst admission counts -/

theorem burst_list_cons_accept (L K : ℕ) (hK : 1 ≤ K) :
    List.replicate (min (L + 1) K) true ++ List.replicate ((L + 1) - K) false
      = true :: (List.replicate (min L (K - 1)) true
          ++ List.replicate (L - (K - 1)) false) := by
  obtain ⟨K', rfl⟩ : ∃ K', K = K' + 1 := ⟨K - 1, by omega⟩
  have h1 : min (L + 1) (K' + 1) = min L K' + 1 := by omega
  have h2 : (L + 1) - (K' + 1) = L - K' := by omega
  have h3 : K' + 1 - 1 = K' := by omega
  rw [h1, h2, h3, List.replicate_succ]
  simp

theorem burst_list_cons_reject (L : ℕ) :
    List.replicate (min (L + 1) 0) true ++ List.replicate ((L + 1) - 0) false
      = false :: (List.replicate (min L 0) true
          ++ List.replicate (L - 0) false) := by
  simp [List.replicate_succ]

theorem tb_burst_aux (p : Params) (C : ℕ) (identifier : Option String)
    (key : String) (hkey : getKey p.scope identifier = .ok key) (hC : 1 ≤ C)
    (hcap : p.capacity = (C : ℚ)) (hrate : 0 < p.fill_rate) (t0 : ℚ) :
    ∀ (ts : List ℚ) (store : Store TBState) (i : ℕ), 1 ≤ i →
      (∀ t ∈ ts, t0 ≤ t ∧ (t - t0) * p.fill_rate < 1) →
      ∀ tprev, t0 ≤ tprev → (tprev - t0) * p.fill_rate < 1 →
      store key = some ⟨p.capacity - ((min i C : ℕ) : ℚ)
        + (tprev - t0) * p.fill_rate, tprev⟩ →
      ∃ st', TokenBucketLimiter.run p store (ts.map fun t => (identifier, t))
        = .ok (List.replicate (min ts.length (C - i)) true
            ++ List.replicate (ts.length - (C - i)) false, st') := by
  intro ts
  induction ts with
  | nil =>
    intro store i hi hts tprev hp1 hp2 hst
    exact ⟨store, by simp [TokenBucketLimiter.run, runCalls_nil]⟩
  | cons t ts ih =>
    intro store i hi hts tprev hp1 hp2 hst
    obtain ⟨ht0, htlt⟩ := hts t (List.mem_cons_self _ _)
    have hts' : ∀ u ∈ ts, t0 ≤ u ∧ (u - t0) * p.fill_rate < 1 :=
      fun u hu => hts u (List.mem_cons_of_mem _ hu)
    have hrh0 : (0:ℚ) ≤ (t - t0) * p.fill_rate :=
      mul_nonneg (by linarith) hrate.le
    have hm1 : 1 ≤ min i C := le_min hi hC
    have hmle : (1:ℚ) ≤ ((min i C : ℕ) : ℚ) := by exact_mod_cast hm1
    have harith : p.capacity - ((min i C : ℕ) : ℚ)
        + (tprev - t0) * p.fill_rate + (t - tprev) * p.fill_rate
        = p.capacity - ((min i C : ℕ) : ℚ) + (t - t0) * p.fill_rate := by
      ring
    have hle : p.capacity - ((min i C : ℕ) : ℚ) + (t - t0) * p.fill_rate
        ≤ p.capacity := by
      linarith
    have hclamp : min p.capacity
        (p.capacity - ((min i C : ℕ) : ℚ) + (t - t0) * p.fill_rate)
        = p.capacity - ((min i C : ℕ) : ℚ) + (t - t0) * p.fill_rate :=
      min_eq_right hle
    rcases lt_or_le i C with hiC | hCi
    · -- the i-th stored state still has at least one token: admission
      have hiC' : (i:ℚ) + 1 ≤ (C:ℚ) := by exact_mod_cast hiC
      have hmi : min i C = i := min_eq_left hiC.le
      have hadm : 1 ≤ min p.capacity
          (p.capacity - ((min i C : ℕ) : ℚ) + (t - t0) * p.fill_rate) := by
        rw [hclamp, hmi, hcap]
        linarith
      have hstep : TokenBucketLimiter.allow_request p store identifier t
          = .ok (true, store.set key ⟨min p.capacity
              (p.capacity - ((min i C : ℕ) : ℚ) + (t - t0) * p.fill_rate) - 1,
              t⟩) := by
        rw [tb_allow_some p store identifier t key _ hkey hst]
        dsimp only
        rw [harith, if_pos hadm]
      have hmi1 : min (i + 1) C = i + 1 := min_eq_left (by omega)
      have hv : min p.capacity
          (p.capacity - ((min i C : ℕ) : ℚ) + (t - t0) * p.fill_rate) - 1
          = p.capacity - ((min (i + 1) C : ℕ) : ℚ)
            + (t - t0) * p.fill_rate := by
        rw [hclamp, hmi, hmi1]
        push_cast
        ring
      have hst' : (store.set key ⟨min p.capacity
          (p.capacity - ((min i C : ℕ) : ℚ) + (t - t0) * p.fill_rate) - 1, t⟩)
            key
          = some ⟨p.capacity - ((min (i + 1) C : ℕ) : ℚ)
              + (t - t0) * p.fill_rate, t⟩ := by
        rw [Store.set_self, hv]
      obtain ⟨st', hrun⟩ := ih _ (i + 1) (by omega) hts' t ht0 htlt hst'
      refine ⟨st', ?_⟩
      simp only [List.map_cons, TokenBucketLimiter.run] at hrun ⊢
      rw [runCalls_cons_ok _ store _ identifier t true _ hstep, hrun]
      simp only [Except.map]
      have hck : C - (i + 1) = (C - i) - 1 := by omega
      rw [List.length_cons, burst_list_cons_accept ts.length (C - i) (by omega),
        ← hck]
    · -- capacity exhausted: rejection, state keeps absorbing elapsed time
      have hmi : min i C = C := min_eq_right hCi
      have hrej : ¬ 1 ≤ min p.capacity
          (p.capacity - ((min i C : ℕ) : ℚ) + (t - t0) * p.fill_rate) := by
        rw [hclamp, hmi, hcap]
        linarith
      have hstep : TokenBucketLimiter.allow_request p store identifier t
          = .ok (false, store.set key ⟨min p.capacity
              (p.capacity - ((min i C : ℕ) : ℚ) + (t - t0) * p.fill_rate),
              t⟩) := by
        rw [tb_allow_some p store identifier t key _ hkey hst]
        dsimp only
        rw [harith, if_neg hrej]
      have hst' : (store.set key ⟨min p.capacity
          (p.capacity - ((min i C : ℕ) : ℚ) + (t - t0) * p.fill_rate), t⟩) key
          = some ⟨p.capacity - ((min i C : ℕ) : ℚ)
              + (t - t0) * p.fill_rate, t⟩ := by
        rw [Store.set_self, hclamp]
      obtain ⟨st', hrun⟩ := ih _ i hi hts' t ht0 htlt hst'
      refine ⟨st', ?_⟩
      simp only [List.map_cons, TokenBucketLimiter.run] at hrun ⊢
      rw [runCalls_cons_ok _ store _ identifier t false _ hstep, hrun]
      simp only [Except.map]
      have hck : C - i = 0 := by omega
      rw [List.length_cons, hck, burst_list_cons_reject ts.length]

theorem tb_burst (p : Params) (C : ℕ) (identifier : Option String)
    (key : String) (hkey : getKey p.scope identifier = .ok key) (hC : 1 ≤ C)
    (hcap : p.capacity = (C : ℚ)) (hrate : 0 < p.fill_rate) (t0 : ℚ)
    (ts : List ℚ) (hts : ∀ t ∈ ts, t0 ≤ t ∧ (t - t0) * p.fill_rate < 1) :
    decisionsOf (TokenBucketLimiter.run p emptyStore
        ((t0 :: ts).map fun t => (identifier, t)))
      = .ok (List.replicate (min (ts.length + 1) C) true
          ++ List.replicate ((ts.length + 1) - C) false) := by
  have hstep : TokenBucketLimiter.allow_request p emptyStore identifier t0
      = .ok (true, Store.set emptyStore key ⟨p.capacity - 1, t0⟩) :=
    tb_allow_none p emptyStore identifier t0 key hkey rfl
  have hm1 : min 1 C = 1 := min_eq_left hC
  have hst' : (Store.set (emptyStore : Store TBState) key
        (⟨p.capacity - 1, t0⟩ : TBState)) key
      = some (⟨p.capacity - ((min 1 C : ℕ) : ℚ) + (t0 - t0) * p.fill_rate,
          t0⟩ : TBState) := by
    rw [Store.set_self, hm1]
    norm_num
  obtain ⟨st', hrun⟩ := tb_burst_aux p C identifier key hkey hC hcap hrate t0
    ts _ 1 le_rfl hts t0 le_rfl
    (by rw [sub_self, zero_mul]; exact zero_lt_one) hst'
  simp only [List.map_cons, TokenBucketLimiter.run] at hrun ⊢
  rw [decisionsOf, runCalls_cons_ok _ emptyStore _ identifier t0 true _ hstep,
    hrun]
  simp only [Except.map]
  rw [burst_list_cons_accept ts.length C hC]

theorem lb_burst_aux (p : Params) (C : ℕ) (identifier : Option String)
    (key : String) (hkey : getKey p.scope identifier = .ok key) (hC : 1 ≤ C)
    (hcap : p.capacity = (C : ℚ)) (hrate : 0 < p.fill_rate) (t0 : ℚ) :
    ∀ (ts : List ℚ) (store : Store LBState) (i : ℕ), 1 ≤ i →
      (∀ t ∈ ts, t0 ≤ t ∧ (t - t0) * p.fill_rate < 1) →
      ∀ tprev, t0 ≤ tprev → (tprev - t0) * p.fill_rate < 1 →
      store key = some ⟨((min i C : ℕ) : ℚ) - (tprev - t0) * p.fill_rate,
        tprev⟩ →
      ∃ st', LeakyBucketLimiter.run p store (ts.map fun t => (identifier, t))
        = .ok (List.replicate (min ts.length (C - i)) true
            ++ List.replicate (ts.length - (C - i)) false, st') := by
  intro ts
  induction ts with
  | nil =>
    intro store i hi hts tprev hp1 hp2 hst
    exact ⟨store, by simp [LeakyBucketLimiter.run, runCalls_nil]⟩
  | cons t ts ih =>
    intro store i hi hts tprev hp1 hp2 hst
    obtain ⟨ht0, htlt⟩ := hts t (List.mem_cons_self _ _)
    have hts' : ∀ u ∈ ts, t0 ≤ u ∧ (u - t0) * p.fill_rate < 1 :=
      fun u hu => hts u (List.mem_cons_of_mem _ hu)
    have hrh0 : (0:ℚ) ≤ (t - t0) * p.fill_rate :=
      mul_nonneg (by linarith) hrate.le
    have hm1 : 1 ≤ min i C := le_min hi hC
    have hmle : (1:ℚ) ≤ ((min i C : ℕ) : ℚ) := by exact_mod_cast hm1
    have harith : ((min i C : ℕ) : ℚ) - (tprev - t0) * p.fill_rate
        - (t - tprev) * p.fill_rate
        = ((min i C : ℕ) : ℚ) - (t - t0) * p.fill_rate := by
      ring
    have hclamp : max 0 (((min i C : ℕ) : ℚ) - (t - t0) * p.fill_rate)
        = ((min i C : ℕ) : ℚ) - (t - t0) * p.fill_rate :=
      max_eq_right (by linarith)
    rcases lt_or_le i C with hiC | hCi
    · -- room left in the bucket: admission
      have hiC' : (i:ℚ) + 1 ≤ (C:ℚ) := by exact_mod_cast hiC
      have hmi : min i C = i := min_eq_left hiC.le
      have hadm : max 0 (((min i C : ℕ) : ℚ) - (t - t0) * p.fill_rate) + 1
          ≤ p.capacity := by
        rw [hclamp, hmi, hcap]
        linarith
      have hstep : LeakyBucketLimiter.allow_request p store identifier t
          = .ok (true, store.set key
              ⟨max 0 (((min i C : ℕ) : ℚ) - (t - t0) * p.fill_rate) + 1,
                t⟩) := by
        rw [lb_allow_some p store identifier t key _ hkey hst]
        dsimp only
        rw [harith, if_pos hadm]
      have hmi1 : min (i + 1) C = i + 1 := min_eq_left (by omega)
      have hv : max 0 (((min i C : ℕ) : ℚ) - (t - t0) * p.fill_rate) + 1
          = ((min (i + 1) C : ℕ) : ℚ) - (t - t0) * p.fill_rate := by
        rw [hclamp, hmi, hmi1]
        push_cast
        ring
      have hst' : (store.set key
          ⟨max 0 (((min i C : ℕ) : ℚ) - (t - t0) * p.fill_rate) + 1, t⟩) key
          = some ⟨((min (i + 1) C : ℕ) : ℚ) - (t - t0) * p.fill_rate, t⟩ := by
        rw [Store.set_self, hv]
      obtain ⟨st', hrun⟩ := ih _ (i + 1) (by omega) hts' t ht0 htlt hst'
      refine ⟨st', ?_⟩
      simp only [List.map_cons, LeakyBucketLimiter.run] at hrun ⊢
      rw [runCalls_cons_ok _ store _ identifier t true _ hstep, hrun]
      simp only [Except.map]
      have hck : C - (i + 1) = (C - i) - 1 := by omega
      rw [List.length_cons, burst_list_cons_accept ts.length (C - i) (by omega),
        ← hck]
    · -- bucket full: rejection, but the leaked amount is kept
      have hmi : min i C = C := min_eq_right hCi
      have hrej : ¬ max 0 (((min i C : ℕ) : ℚ) - (t - t0) * p.fill_rate) + 1
          ≤ p.capacity := by
        rw [hclamp, hmi, hcap]
        linarith
      have hstep : LeakyBucketLimiter.allow_request p store identifier t
          = .ok (false, store.set key
              ⟨max 0 (((min i C : ℕ) : ℚ) - (t - t0) * p.fill_rate), t⟩) := by
        rw [lb_allow_some p store identifier t key _ hkey hst]
        dsimp only
        rw [harith, if_neg hrej]
      have hst' : (store.set key
          ⟨max 0 (((min i C : ℕ) : ℚ) - (t - t0) * p.fill_rate), t⟩) key
          = some ⟨((min i C : ℕ) : ℚ) - (t - t0) * p.fill_rate, t⟩ := by
        rw [Store.set_self, hclamp]
      obtain ⟨st', hrun⟩ := ih _ i hi hts' t ht0 htlt hst'
      refine ⟨st', ?_⟩
      simp only [List.map_cons, LeakyBucketLimiter.run] at hrun ⊢
      rw [runCalls_cons_ok _ store _ identifier t false _ hstep, hrun]
      simp only [Except.map]
      have hck : C - i = 0 := by omega
      rw [List.length_cons, hck, burst_list_cons_reject ts.length]

theorem lb_burst (p : Params) (C : ℕ) (identifier : Option String)
    (key : String) (hkey : getKey p.scope identifier = .ok key) (hC : 1 ≤ C)
    (hcap : p.capacity = (C : ℚ)) (hrate : 0 < p.fill_rate) (t0 : ℚ)
    (ts : List ℚ) (hts : ∀ t ∈ ts, t0 ≤ t ∧ (t - t0) * p.fill_rate < 1) :
    decisionsOf (LeakyBucketLimiter.run p emptyStore
        ((t0 :: ts).map fun t => (identifier, t)))
      = .ok (List.replicate (min (ts.length + 1) C) true
          ++ List.replicate ((ts.length + 1) - C) false) := by
  have hstep : LeakyBucketLimiter.allow_request p emptyStore identifier t0
      = .ok (true, Store.set emptyStore key ⟨1, t0⟩) :=
    lb_allow_none p emptyStore identifier t0 key hkey rfl
  have hm1 : min 1 C = 1 := min_eq_left hC
  have hst' : (Store.set (emptyStore : Store LBState) key
        (⟨1, t0⟩ : LBState)) key
      = some (⟨((min 1 C : ℕ) : ℚ) - (t0 - t0) * p.fill_rate, t0⟩
          : LBState) := by
    rw [Store.set_self, hm1]
    norm_num
  obtain ⟨st', hrun⟩ := lb_burst_aux p C identifier key hkey hC hcap hrate t0
    ts _ 1 le_rfl hts t0 le_rfl
    (by rw [sub_self, zero_mul]; exact zero_lt_one) hst'
  simp only [List.map_cons, LeakyBucketLimiter.run] at hrun ⊢
  rw [decisionsOf, runCalls_cons_ok _ emptyStore _ identifier t0 true _ hstep,
    hrun]
  simp only [Except.map]
  rw [burst_list_cons_accept ts.length C hC]

theorem q_burst_aux (p : Params) (C : ℕ) (identifier : Option String)
    (key : String) (hkey : getKey p.scope identifier = .ok key)
    (hcap : p.capacity = (C : ℚ)) (hrate : 0 < p.fill_rate) (t0 : ℚ) :
    ∀ (ts : List ℚ) (store : Store QState) (i : ℕ) (q : List ℚ), 1 ≤ i →
      (∀ t ∈ ts, t0 ≤ t ∧ (t - t0) * p.fill_rate < 1) →
      store key = some ⟨q, t0⟩ → q.length = min i C →
      ∃ st', QueueLimiter.run p store (ts.map fun t => (identifier, t))
        = .ok (List.replicate (min ts.length (C - i)) true
            ++ List.replicate (ts.length - (C - i)) false, st') := by
  intro ts
  induction ts with
  | nil =>
    intro store i q hi hts hst hlen
    exact ⟨store, by simp [QueueLimiter.run, runCalls_nil]⟩
  | cons t ts ih =>
    intro store i q hi hts hst hlen
    obtain ⟨ht0, htlt⟩ := hts t (List.mem_cons_self _ _)
    have hts' : ∀ u ∈ ts, t0 ≤ u ∧ (u - t0) * p.fill_rate < 1 :=
      fun u hu => hts u (List.mem_cons_of_mem _ hu)
    have hrh0 : (0:ℚ) ≤ (t - t0) * p.fill_rate :=
      mul_nonneg (by linarith) hrate.le
    have hdata : QueueLimiter.get_data store key t = ⟨q, t0⟩ := by
      rw [QueueLimiter.get_data, hst]
      rfl
    have hrm : pyTrunc ((t - t0) * p.fill_rate) = 0 :=
      pyTrunc_eq_zero_of_lt_one hrh0 htlt
    rcases lt_or_le i C with hiC | hCi
    · -- queue below capacity: admission appends the call instant
      have hmi : min i C = i := min_eq_left hiC.le
      have hadm : ((q.length : ℕ) : ℚ) < p.capacity := by
        rw [hlen, hmi, hcap]
        exact_mod_cast hiC
      have hstep : QueueLimiter.allow_request p store identifier t
          = .ok (true, store.set key ⟨q ++ [t], t0⟩) := by
        rw [q_allow p store identifier t key hkey]
        simp only [hdata, hrm, lt_self_iff_false, if_false]
        rw [if_pos hadm]
      have hst' : (store.set key ⟨q ++ [t], t0⟩) key = some ⟨q ++ [t], t0⟩ :=
        Store.set_self _ _ _
      have hlen' : (q ++ [t]).length = min (i + 1) C := by
        rw [List.length_append, hlen, hmi, min_eq_left (by omega :
          i + 1 ≤ C)]
        simp
      obtain ⟨st', hrun⟩ := ih _ (i + 1) (q ++ [t]) (by omega) hts' hst' hlen'
      refine ⟨st', ?_⟩
      simp only [List.map_cons, QueueLimiter.run] at hrun ⊢
      rw [runCalls_cons_ok _ store _ identifier t true _ hstep, hrun]
      simp only [Except.map]
      have hck : C - (i + 1) = (C - i) - 1 := by omega
      rw [List.length_cons, burst_list_cons_accept ts.length (C - i) (by omega),
        ← hck]
    · -- queue at capacity and nothing expired within the window: rejection
      have hmi : min i C = C := min_eq_right hCi
      have hrej : ¬ ((q.length : ℕ) : ℚ) < p.capacity := by
        rw [hlen, hmi, hcap]
        simp
      have hstep : QueueLimiter.allow_request p store identifier t
          = .ok (false, store.set key ⟨q, t0⟩) := by
        rw [q_allow p store identifier t key hkey]
        simp only [hdata, hrm, lt_self_iff_false, if_false]
        rw [if_neg hrej]
      have hst' : (store.set key ⟨q, t0⟩) key = some ⟨q, t0⟩ :=
        Store.set_self _ _ _
      obtain ⟨st', hrun⟩ := ih _ i q hi hts' hst' hlen
      refine ⟨st', ?_⟩
      simp only [List.map_cons, QueueLimiter.run] at hrun ⊢
      rw [runCalls_cons_ok _ store _ identifier t false _ hstep, hrun]
      simp only [Except.map]
      have hck : C - i = 0 := by omega
      rw [List.length_cons, hck, burst_list_cons_reject ts.length]

theorem q_burst (p : Params) (C : ℕ) (identifier : Option String)
    (key : String) (hkey : getKey p.scope identifier = .ok key) (hC : 1 ≤ C)
    (hcap : p.capacity = (C : ℚ)) (hrate : 0 < p.fill_rate) (t0 : ℚ)
    (ts : List ℚ) (hts : ∀ t ∈ ts, t0 ≤ t ∧ (t - t0) * p.fill_rate < 1) :
    decisionsOf (QueueLimiter.run p emptyStore
        ((t0 :: ts).map fun t => (identifier, t)))
      = .ok (List.replicate (min (ts.length + 1) C) true
          ++ List.replicate ((ts.length + 1) - C) false) := by
  have hdata : QueueLimiter.get_data emptyStore key t0 = ⟨[], t0⟩ := rfl
  have hrm : pyTrunc ((t0 - t0) * p.fill_rate) = 0 := by
    rw [sub_self, zero_mul]
    exact pyTrunc_eq_zero_of_lt_one le_rfl zero_lt_one
  have hadm : ((([] : List ℚ).length : ℕ) : ℚ) < p.capacity := by
    rw [hcap]
    simp
    exact_mod_cast hC
  have hstep : QueueLimiter.allow_request p emptyStore identifier t0
      = .ok (true, Store.set emptyStore key ⟨[t0], t0⟩) := by
    rw [q_allow p emptyStore identifier t0 key hkey]
    simp only [hdata, hrm, lt_self_iff_false, if_false]
    rw [if_pos hadm]
    simp
  have hst' : (Store.set (emptyStore : Store QState) key
      (⟨[t0], t0⟩ : QState)) key = some (⟨[t0], t0⟩ : QState) :=
    Store.set_self _ _ _
  have hlen : ([t0] : List ℚ).length = min 1 C := by
    rw [min_eq_left hC]
    rfl
  obtain ⟨st', hrun⟩ := q_burst_aux p C identifier key hkey hcap hrate t0
    ts _ 1 [t0] le_rfl hts hst' hlen
  simp only [List.map_cons, QueueLimiter.run] at hrun ⊢
  rw [decisionsOf, runCalls_cons_ok _ emptyStore _ identifier t0 true _ hstep,
    hrun]
  simp only [Except.map]
  rw [burst_list_cons_accept ts.length C hC]

/-- C2 counterexample: token bucket with capacity 2 and fill rate 1, three
calls spaced 9/10 s apart (each gap shorter than 1/fill_rate = 1 s): the
partial refill accumulated across the burst admits a third request, so the
burst admits more than capacity = 2 requests, refuting the claim for bursts
merely *spaced* less than 1/fill_rate apart. -/
theorem claim_C2_counterexample :
    decisionsOf (TokenBucketLimiter.run ⟨2, 1, "user"⟩ emptyStore
        [(some "u", 0), (some "u", 9/10), (some "u", 9/5)])
      = .ok [true, true, true] := by
  norm_num [decisionsOf, TokenBucketLimiter.run, runCalls,
    TokenBucketLimiter.allow_request, getKey, pyStr, emptyStore, Store.set,
    Except.map, bind, Except.bind]

/-- C2 (amended): for every algorithm with natural capacity `C ≥ 1` and
`fill_rate > 0`, an unbroken burst of allow_request calls for one identifier
that all fall within a window shorter than `1/fill_rate` after the first call
admits exactly the first `min n C` requests and rejects every later one in
the burst; in particular ten simultaneous token-bucket calls with capacity 5
and fill rate 1 yield five `true` then five `false`. -/
theorem claim_C2_burst_capacity (p : Params) (C : ℕ)
    (identifier : Option String) (key : String)
    (hkey : getKey p.scope identifier = .ok key) (hC : 1 ≤ C)
    (hcap : p.capacity = (C : ℚ)) (hrate : 0 < p.fill_rate)
    (t0 : ℚ) (ts : List ℚ)
    (hts : ∀ t ∈ ts, t0 ≤ t ∧ (t - t0) * p.fill_rate < 1) :
    (decisionsOf (TokenBucketLimiter.run p emptyStore
        ((t0 :: ts).map fun t => (identifier, t)))
      = .ok (List.replicate (min (ts.length + 1) C) true
          ++ List.replicate ((ts.length + 1) - C) false))
    ∧ (decisionsOf (LeakyBucketLimiter.run p emptyStore
        ((t0 :: ts).map fun t => (identifier, t)))
      = .ok (List.replicate (min (ts.length + 1) C) true
          ++ List.replicate ((ts.length + 1) - C) false))
    ∧ (decisionsOf (QueueLimiter.run p emptyStore
        ((t0 :: ts).map fun t => (identifier, t)))
      = .ok (List.replicate (min (ts.length + 1) C) true
          ++ List.replicate ((ts.length + 1) - C) false))
    ∧ decisionsOf (TokenBucketLimiter.run ⟨5, 1, "user"⟩ emptyStore
        (List.replicate 10 ((some "u" : Option String), (0 : ℚ))))
      = .ok [true, true, true, true, true,
          false, false, false, false, false] :=
  ⟨tb_burst p C identifier key hkey hC hcap hrate t0 ts hts,
   lb_burst p C identifier key hkey hC hcap hrate t0 ts hts,
   q_burst p C identifier key hkey hC hcap hrate t0 ts hts,
   by
    norm_num [decisionsOf, TokenBucketLimiter.run, runCalls,
      TokenBucketLimiter.allow_request, getKey, pyStr, emptyStore, Store.set,
      Except.map, bind, Except.bind, List.replicate]⟩

/-- Witness for C2 at a concrete input: capacity 2, three simultaneous
calls. -/
theorem claim_C2_witness :
    decisionsOf (TokenBucketLimiter.run ⟨2, 1, "user"⟩ emptyStore
        (((0 : ℚ) :: [0, 0]).map fun t => ((some "u" : Option String), t)))
      = .ok (List.replicate (min (([0, 0] : List ℚ).length + 1) 2) true
          ++ List.replicate ((([0, 0] : List ℚ).length + 1) - 2) false) :=
  (claim_C2_burst_capacity ⟨2, 1, "user"⟩ 2 (some "u") "ratelimit:user:u" rfl
    (by norm_num) (by norm_num) (by norm_num) 0 [0, 0]
    (by
      intro t ht
      simp only [List.mem_cons, List.not_mem_nil, or_false] at ht
      rcases ht with rfl | rfl <;> norm_num)).1
